import Mathlib

/-!
Formal model of the 42-coin wallet/staking helper code: the coin-age and
proof-of-stake reward helpers of `KernelRecord` (stun.cpp / kernelrecord
section), the accounting-entry bookkeeping of the `move` RPC, the `sendmany`
and `walletpassphrase` RPC command bodies, `listsinceblock`, and the STUN
external-IP probe loop (`GetExternalIPbySTUN`).

Machine integers are modelled as `ℤ` (for C `int64_t`) and `ℕ` (for the
unsigned quantities of the STUN loop, reduced `% 2 ^ 64` or `% 65536` where
the C code truncates).  C `int64_t` division truncates toward zero, which is
`Int.tdiv`; every theorem below only divides a non-negative numerator by a
positive denominator, where `Int.tdiv` agrees with `Int.ediv` (Lean's `/`).
Overflow of `int64_t` products is outside the modelled range and is not
exercised by any claim.
-/

namespace FortyTwo

/-- Base monetary unit: `COIN = 10^8` sub-units (util.h constant, per the
glossary of the specification). -/
def COIN : ℤ := 100000000

/-- Number of seconds in a day, the `nOneDay` constant. -/
def nOneDay : ℤ := 86400

/-!
## Coin-age model (`KernelRecord::getCoinDay`, `KernelRecord::getPoSReward`)

The network parameters `nStakeMinAge` and `nStakeMaxAge` are declared
`extern` and are not defined in the visible sources; the specification says
they are network-defined.  They are therefore passed as explicit arguments
`nStakeMinAge` / `nStakeMaxAge` below, and theorems quantify over them.
`GetAdjustedTime()` is passed as the argument `now`.
-/

/-- `KernelRecord::getCoinDay` (stun.cpp, kernelrecord section):

    int64_t nWeight = GetAdjustedTime() - nTime - nStakeMinAge;
    if (nWeight < 0) return 0;
    nWeight = min(nWeight, (int64_t)nStakeMaxAge);
    uint64_t coinAge = (nValue * nWeight) / (COIN * nOneDay);
    return coinAge;

Note the clamp is `min nWeight nStakeMaxAge`, after `nStakeMinAge` has
already been subtracted. -/
def getCoinDay (nStakeMinAge nStakeMaxAge now nTime nValue : ℤ) : ℤ :=
  let nWeight := now - nTime - nStakeMinAge
  if nWeight < 0 then 0
  else Int.tdiv (nValue * min nWeight nStakeMaxAge) (COIN * nOneDay)

/-- The coin-day formula exactly as the specification words it (for
comparison with `getCoinDay`): `value * clamped-weight / (COIN * ONE_DAY)`
with `clamped-weight = min (max (now - nTime - stakeMinAge) 0)
(stakeMaxAge - stakeMinAge)`. -/
def coinDaySpec (nStakeMinAge nStakeMaxAge now nTime nValue : ℤ) : ℤ :=
  Int.tdiv
    (nValue * min (max (now - nTime - nStakeMinAge) 0) (nStakeMaxAge - nStakeMinAge))
    (COIN * nOneDay)

/-- `KernelRecord::getPoSReward` (stun.cpp, kernelrecord section):

    int64_t nWeight = GetAdjustedTime() - nTime + minutes * 60;
    if (nWeight < nStakeMinAge) return 0;
    uint64_t coinAge = (nValue * nWeight) / (COIN * nOneDay);
    PoSReward = GetProofOfStakeReward(coinAge);

`GetProofOfStakeReward` lives outside the visible sources.  Modelled from
the spec: it is "a monotone, piecewise schedule defined by network rules",
so it is kept abstract as the function argument `reward`, and theorems add
the monotonicity the spec states. -/
def getPoSReward (nStakeMinAge : ℤ) (reward : ℤ → ℤ) (now nTime nValue minutes : ℤ) : ℤ :=
  let nWeight := now - nTime + minutes * 60
  if nWeight < nStakeMinAge then 0
  else reward (Int.tdiv (nValue * nWeight) (COIN * nOneDay))

/-- The denominator `COIN * nOneDay` is positive. -/
lemma coinDay_den_pos : (0 : ℤ) < COIN * nOneDay := by decide

/-- `getCoinDay` is non-negative when the value and the max-age parameter
are non-negative. -/
lemma getCoinDay_nonneg (m M now t v : ℤ) (hv : 0 ≤ v) (hM : 0 ≤ M) :
    0 ≤ getCoinDay m M now t v := by
  unfold getCoinDay
  by_cases h : now - t - m < 0
  · simp [h]
  · have hw : 0 ≤ now - t - m := not_lt.mp h
    have hmin : 0 ≤ min (now - t - m) M := le_min hw hM
    have hnum : 0 ≤ v * min (now - t - m) M := mul_nonneg hv hmin
    rw [if_neg h, Int.tdiv_eq_ediv hnum (le_of_lt coinDay_den_pos)]
    exact Int.ediv_nonneg hnum (le_of_lt coinDay_den_pos)

/-- Helper: on the non-negative branch, `getCoinDay` is the clamped quotient. -/
lemma getCoinDay_of_nonneg (m M now t v : ℤ) (h : 0 ≤ now - t - m) :
    getCoinDay m M now t v =
      Int.tdiv (v * min (now - t - m) M) (COIN * nOneDay) := by
  unfold getCoinDay
  rw [if_neg (not_lt.mpr h)]

/-- C1, counterexample.  With `stakeMinAge = 1` day and `stakeMaxAge = 42`
days, at `now - nTime = 43` days and `nValue = COIN` the code clamps the
weight at `stakeMaxAge` (42 days of weight, coin-day 42) while the claimed
formula clamps at `stakeMaxAge - stakeMinAge` (41 days, coin-day 41).  And
for the S2 shape `nTime = now - stakeMaxAge - 10*ONE_DAY` with
`stakeMinAge = 20` days and `nValue = 100*COIN`, the code yields 3200, not
the claimed `100 * stakeMaxAge / ONE_DAY = 4200`, and the result changes to
4200 when `now` advances by another 10 days. -/
theorem C1_getCoinDay_counterexample :
    getCoinDay 86400 3628800 3715200 0 100000000 = 42 ∧
    coinDaySpec 86400 3628800 3715200 0 100000000 = 41 ∧
    getCoinDay 1728000 3628800 4492800 0 10000000000 = 3200 ∧
    getCoinDay 1728000 3628800 (4492800 + 10 * 86400) 0 10000000000 = 4200 ∧
    (3200 : ℤ) ≠ 100 * 3628800 / 86400 := by
  refine ⟨by decide, by decide, by decide, by decide, by decide⟩

/-- C1, amended.  `getCoinDay` returns
`nValue * min (max (now - nTime - stakeMinAge) 0) stakeMaxAge / (COIN * ONE_DAY)`
— the clamp is at `stakeMaxAge`, not at `stakeMaxAge - stakeMinAge`.  For
`nValue = 100*COIN` and `nTime = now - stakeMaxAge - 10*ONE_DAY` the result
equals `100 * stakeMaxAge / ONE_DAY` provided `stakeMinAge ≤ 10*ONE_DAY`
(so that the weight is already saturated), and it is unchanged when `now`
advances by another 10 days. -/
theorem C1_getCoinDay_amended (m M now t v : ℤ)
    (hM : 0 ≤ M) (hm : 0 ≤ m) (hm10 : m ≤ 10 * 86400) :
    getCoinDay m M now t v =
      Int.tdiv (v * min (max (now - t - m) 0) M) (COIN * nOneDay) ∧
    getCoinDay m M now (now - M - 10 * 86400) (100 * COIN) = 100 * M / 86400 ∧
    getCoinDay m M (now + 10 * 86400) (now - M - 10 * 86400) (100 * COIN) =
      getCoinDay m M now (now - M - 10 * 86400) (100 * COIN) := by
  have hsat : ∀ now' : ℤ, M + 10 * 86400 - m ≤ now' - (now - M - 10 * 86400) - m →
      getCoinDay m M now' (now - M - 10 * 86400) (100 * COIN) =
        Int.tdiv (100 * COIN * M) (COIN * nOneDay) := by
    intro now' hw
    have hwM : M ≤ now' - (now - M - 10 * 86400) - m := le_trans (by omega) hw
    have hw0 : 0 ≤ now' - (now - M - 10 * 86400) - m := le_trans hM hwM
    rw [getCoinDay_of_nonneg _ _ _ _ _ hw0, min_eq_right hwM]
  have hsat1 := hsat now (by omega)
  have hsat2 := hsat (now + 10 * 86400) (by omega)
  have hval : Int.tdiv (100 * COIN * M) (COIN * nOneDay) = 100 * M / 86400 := by
    have hnum : (0 : ℤ) ≤ 100 * COIN * M :=
      mul_nonneg (by decide) hM
    rw [Int.tdiv_eq_ediv hnum (le_of_lt coinDay_den_pos)]
    show 100 * 100000000 * M / (100000000 * 86400) = 100 * M / 86400
    omega
  refine ⟨?_, hsat1.trans hval, hsat2.trans hsat1.symm⟩
  by_cases h : now - t - m < 0
  · have : max (now - t - m) 0 = 0 := max_eq_right h.le
    unfold getCoinDay
    rw [if_pos h, this, min_eq_left hM, mul_zero, Int.zero_tdiv]
  · have h0 : 0 ≤ now - t - m := not_lt.mp h
    rw [getCoinDay_of_nonneg _ _ _ _ _ h0, max_eq_left h0]

/-- Witness for `C1_getCoinDay_amended` at
`m = 0, M = 86400, now = 950400, t = 0, v = 100000000`. -/
theorem C1_getCoinDay_amended_witness :
    ((0 : ℤ) ≤ 86400 ∧ (0 : ℤ) ≤ 0 ∧ (0 : ℤ) ≤ 10 * 86400) ∧
    (getCoinDay 0 86400 950400 0 100000000 =
        Int.tdiv (100000000 * min (max (950400 - 0 - 0) 0) 86400) (COIN * nOneDay) ∧
      getCoinDay 0 86400 950400 (950400 - 86400 - 10 * 86400) (100 * COIN) =
        100 * 86400 / 86400 ∧
      getCoinDay 0 86400 (950400 + 10 * 86400) (950400 - 86400 - 10 * 86400) (100 * COIN) =
        getCoinDay 0 86400 950400 (950400 - 86400 - 10 * 86400) (100 * COIN)) :=
  ⟨⟨by decide, by decide, by decide⟩,
    C1_getCoinDay_amended 0 86400 950400 0 100000000 (by decide) (by decide) (by decide)⟩

/-- C2, counterexample.  With `stakeMinAge = 2` days and `stakeMaxAge = 42`
days, `getCoinDay` is not yet constant once `adjusted-time - nTime`
exceeds `stakeMaxAge`: at `now - nTime = 44` days the coin-day is 42 but at
`now - nTime = 43` days it is 41, although both ages exceed `stakeMaxAge`
(42 days).  The clamp only saturates at `stakeMinAge + stakeMaxAge`. -/
theorem C2_getCoinDay_counterexample :
    getCoinDay 172800 3628800 3715200 (-86400) 100000000 = 42 ∧
    getCoinDay 172800 3628800 3715200 0 100000000 = 41 ∧
    3715200 - (-86400 : ℤ) > 3628800 ∧ 3715200 - (0 : ℤ) > 3628800 ∧
    (42 : ℤ) ≠ 41 := by
  refine ⟨by decide, by decide, by decide, by decide, by decide⟩

/-- C2, amended.  For fixed `value ≥ 0` and fixed `adjusted-time`,
`getCoinDay` is non-increasing in `nTime`; it is zero whenever
`adjusted-time - nTime < stakeMinAge`; and it is constant whenever
`adjusted-time - nTime ≥ stakeMinAge + stakeMaxAge` (rather than beyond
`stakeMaxAge` alone, as the claim stated). -/
theorem C2_getCoinDay_amended (m M now v : ℤ) (hv : 0 ≤ v) (hM : 0 ≤ M) :
    (∀ t t' : ℤ, t ≤ t' →
      getCoinDay m M now t' v ≤ getCoinDay m M now t v) ∧
    (∀ t : ℤ, now - t < m → getCoinDay m M now t v = 0) ∧
    (∀ t t' : ℤ, m + M ≤ now - t → m + M ≤ now - t' →
      getCoinDay m M now t v = getCoinDay m M now t' v) := by
  refine ⟨?_, ?_, ?_⟩
  · intro t t' htt
    by_cases h' : now - t' - m < 0
    · rw [show getCoinDay m M now t' v = 0 by unfold getCoinDay; rw [if_pos h']]
      exact getCoinDay_nonneg m M now t v hv hM
    · have hw' : 0 ≤ now - t' - m := not_lt.mp h'
      have hw : 0 ≤ now - t - m := by omega
      rw [getCoinDay_of_nonneg _ _ _ _ _ hw, getCoinDay_of_nonneg _ _ _ _ _ hw']
      have hmin : min (now - t' - m) M ≤ min (now - t - m) M :=
        min_le_min (by omega) le_rfl
      have hmin' : 0 ≤ min (now - t' - m) M := le_min hw' hM
      have h1 : v * min (now - t' - m) M ≤ v * min (now - t - m) M :=
        mul_le_mul_of_nonneg_left hmin hv
      have hn' : 0 ≤ v * min (now - t' - m) M := mul_nonneg hv hmin'
      have hn : 0 ≤ v * min (now - t - m) M := le_trans hn' h1
      rw [Int.tdiv_eq_ediv hn' (le_of_lt coinDay_den_pos),
        Int.tdiv_eq_ediv hn (le_of_lt coinDay_den_pos)]
      exact Int.ediv_le_ediv coinDay_den_pos h1
  · intro t ht
    unfold getCoinDay
    rw [if_pos (by omega)]
  · intro t t' ht ht'
    have hw : 0 ≤ now - t - m := by omega
    have hw' : 0 ≤ now - t' - m := by omega
    rw [getCoinDay_of_nonneg _ _ _ _ _ hw, getCoinDay_of_nonneg _ _ _ _ _ hw',
      min_eq_right (by omega : M ≤ now - t - m),
      min_eq_right (by omega : M ≤ now - t' - m)]

/-- Witness for `C2_getCoinDay_amended` at `m = 86400, M = 86400,
now = 1000000, v = 100000000`. -/
theorem C2_getCoinDay_amended_witness :
    ((0 : ℤ) ≤ 100000000 ∧ (0 : ℤ) ≤ 86400) ∧
    ((∀ t t' : ℤ, t ≤ t' →
        getCoinDay 86400 86400 1000000 t' 100000000 ≤
          getCoinDay 86400 86400 1000000 t 100000000) ∧
      (∀ t : ℤ, 1000000 - t < 86400 →
        getCoinDay 86400 86400 1000000 t 100000000 = 0) ∧
      (∀ t t' : ℤ, 86400 + 86400 ≤ 1000000 - t → 86400 + 86400 ≤ 1000000 - t' →
        getCoinDay 86400 86400 1000000 t 100000000 =
          getCoinDay 86400 86400 1000000 t' 100000000)) :=
  ⟨⟨by decide, by decide⟩,
    C2_getCoinDay_amended 86400 86400 1000000 100000000 (by decide) (by decide)⟩

/-- C3, counterexample.  Take the monotone schedule `reward = id`, with
`stakeMinAge = 1` day and `stakeMaxAge = 42` days.  At `now - nTime = 100`
days and `nValue = COIN`, `getPoSReward(0)` is `reward` applied to the
unclamped quotient `100`, while the record's coin-age (`getCoinDay`) is the
clamped `42`: the claim "returns GetProofOfStakeReward applied to the
record's coin-age" fails.  Moreover, with the monotone schedule
`reward c = c - 10^9`, going from 1439 to 1440 lookahead minutes drops the
result from 0 to a negative number, so monotonicity in lookahead-minutes
does not follow from monotonicity of the schedule alone. -/
theorem C3_getPoSReward_counterexample :
    getPoSReward 86400 (fun c => c) 8640000 0 100000000 0 = 100 ∧
    (fun c : ℤ => c) (getCoinDay 86400 3628800 8640000 0 100000000) = 42 ∧
    (100 : ℤ) ≠ 42 ∧
    Monotone (fun c : ℤ => c) ∧
    getPoSReward 86400 (fun c => c - 1000000000) 0 0 100000000 1439 = 0 ∧
    getPoSReward 86400 (fun c => c - 1000000000) 0 0 100000000 1440 = -999999999 ∧
    Monotone (fun c : ℤ => c - 1000000000) ∧ (1439 : ℤ) ≤ 1440 ∧
    ¬ (0 : ℤ) ≤ -999999999 := by
  refine ⟨by decide, by decide, by decide, fun a b h => h,
    by decide, by decide, fun a b h => sub_le_sub_right h 1000000000,
    by decide, by decide⟩

/-- C3, amended.  `getPoSReward(minutes)` returns 0 exactly when the
looked-ahead weight `(now - nTime) + 60 * minutes` is below `stakeMinAge`;
otherwise it returns `GetProofOfStakeReward` applied to the unclamped
quotient `nValue * ((now - nTime) + 60 * minutes) / (COIN * ONE_DAY)` — not
to the record's (clamped) coin-age.  When the schedule is monotone
non-decreasing and non-negative at 0, the result is monotone non-decreasing
in the lookahead minutes and in the value (hence in the coin-age fed to the
schedule). -/
theorem C3_getPoSReward_amended (m : ℤ) (f : ℤ → ℤ) (now t v : ℤ)
    (hf : Monotone f) (hf0 : 0 ≤ f 0) (hv : 0 ≤ v) (hm : 0 ≤ m) :
    (∀ mins : ℤ, getPoSReward m f now t v mins =
      if now - t + mins * 60 < m then 0
      else f (Int.tdiv (v * (now - t + mins * 60)) (COIN * nOneDay))) ∧
    (∀ mins mins' : ℤ, mins ≤ mins' →
      getPoSReward m f now t v mins ≤ getPoSReward m f now t v mins') ∧
    (∀ v' mins : ℤ, 0 ≤ v' → v ≤ v' →
      getPoSReward m f now t v mins ≤ getPoSReward m f now t v' mins) := by
  have key : ∀ (w w' u u' : ℤ), 0 ≤ u → u ≤ u' → m ≤ w → w ≤ w' →
      f (Int.tdiv (u * w) (COIN * nOneDay)) ≤
        f (Int.tdiv (u' * w') (COIN * nOneDay)) := by
    intro w w' u u' hu huu hmw hww
    have hw : 0 ≤ w := le_trans hm hmw
    have h1 : u * w ≤ u' * w' :=
      mul_le_mul huu hww hw (le_trans hu huu)
    have hn : 0 ≤ u * w := mul_nonneg hu hw
    have hn' : 0 ≤ u' * w' := le_trans hn h1
    refine hf ?_
    rw [Int.tdiv_eq_ediv hn (le_of_lt coinDay_den_pos),
      Int.tdiv_eq_ediv hn' (le_of_lt coinDay_den_pos)]
    exact Int.ediv_le_ediv coinDay_den_pos h1
  have fnn : ∀ (u w : ℤ), 0 ≤ u → m ≤ w →
      0 ≤ f (Int.tdiv (u * w) (COIN * nOneDay)) := by
    intro u w hu hmw
    have hn : 0 ≤ u * w := mul_nonneg hu (le_trans hm hmw)
    refine le_trans hf0 (hf ?_)
    rw [Int.tdiv_eq_ediv hn (le_of_lt coinDay_den_pos)]
    exact Int.ediv_nonneg hn (le_of_lt coinDay_den_pos)
  refine ⟨fun mins => rfl, ?_, ?_⟩
  · intro mins mins' hmm
    unfold getPoSReward
    by_cases h' : now - t + mins' * 60 < m
    · rw [if_pos h', if_pos (by omega)]
    · rw [if_neg h']
      by_cases h : now - t + mins * 60 < m
      · rw [if_pos h]
        exact fnn v _ hv (not_lt.mp h')
      · rw [if_neg h]
        exact key _ _ v v hv le_rfl (not_lt.mp h) (by omega)
  · intro v' mins hv' hvv
    unfold getPoSReward
    by_cases h : now - t + mins * 60 < m
    · rw [if_pos h, if_pos h]
    · rw [if_neg h, if_neg h]
      exact key _ _ v v' hv hvv (not_lt.mp h) le_rfl

/-- Witness for `C3_getPoSReward_amended` at `m = 86400`, `f = id`,
`now = 8640000, t = 0, v = 100000000`. -/
theorem C3_getPoSReward_amended_witness :
    (Monotone (fun c : ℤ => c) ∧ (0 : ℤ) ≤ 0 ∧ (0 : ℤ) ≤ 100000000 ∧
      (0 : ℤ) ≤ 86400) ∧
    ((∀ mins : ℤ, getPoSReward 86400 (fun c => c) 8640000 0 100000000 mins =
        if 8640000 - 0 + mins * 60 < 86400 then 0
        else (fun c : ℤ => c)
          (Int.tdiv (100000000 * (8640000 - 0 + mins * 60)) (COIN * nOneDay))) ∧
      (∀ mins mins' : ℤ, mins ≤ mins' →
        getPoSReward 86400 (fun c => c) 8640000 0 100000000 mins ≤
          getPoSReward 86400 (fun c => c) 8640000 0 100000000 mins') ∧
      (∀ v' mins : ℤ, 0 ≤ v' → 100000000 ≤ v' →
        getPoSReward 86400 (fun c => c) 8640000 0 100000000 mins ≤
          getPoSReward 86400 (fun c => c) 8640000 0 v' mins)) :=
  ⟨⟨fun a b h => h, by decide, by decide, by decide⟩,
    C3_getPoSReward_amended 86400 (fun c => c) 8640000 0 100000000
      (fun a b h => h) (by decide) (by decide) (by decide)⟩

/-!
## RPC error taxonomy (bitcoinrpc.h codes used by rpcwallet.cpp)

Only the distinctions matter for the claims; the constructors carry the
source identifiers (`RPC_SEND_AMOUNT_TOO_SMALL` is the literal `-101` used
with the message "Send amount too small", and `RPC_RUNTIME_ERROR` stands
for a thrown `std::runtime_error`, the usage-string path).
-/

inductive RPCErrorCode where
  | RPC_INVALID_ADDRESS_OR_KEY
  | RPC_INVALID_PARAMETER
  | RPC_WALLET_INVALID_ACCOUNT_NAME
  | RPC_SEND_AMOUNT_TOO_SMALL
  | RPC_WALLET_UNLOCK_NEEDED
  | RPC_WALLET_INSUFFICIENT_FUNDS
  | RPC_WALLET_ERROR
  | RPC_DATABASE_ERROR
  | RPC_WALLET_WRONG_ENC_STATE
  | RPC_WALLET_ALREADY_UNLOCKED
  | RPC_WALLET_PASSPHRASE_INCORRECT
  | RPC_RUNTIME_ERROR
  deriving DecidableEq, Repr

/-- A JSON-RPC error object: code plus message. -/
structure RPCError where
  code : RPCErrorCode
  message : String
  deriving DecidableEq, Repr

/-!
## Wallet accounting (`movecmd`, `GetAccountBalance`, rpcwallet.cpp)
-/

/-- `CAccountingEntry` as `movecmd` fills it in. -/
structure CAccountingEntry where
  nOrderPos : ℕ
  strAccount : String
  nCreditDebit : ℤ
  nTime : ℤ
  strOtherAccount : String
  strComment : String
  deriving DecidableEq, Repr

/-- The wallet state seen by the accounting RPCs.  `txAccountTally acct` is
the wallet-transaction part of `GetAccountBalance` (the sum over
`mapWallet` of `nReceived + nGenerated - nSent - nFee` for final
transactions passing the depth check); it is abstracted as a function
because `move` writes only accounting entries and never touches wallet
transactions.  `entries` is the accounting-entry ledger
(`CWalletDB::ListAccountCreditDebit`) and `nOrderPosNext` the wallet's
`nOrderPosNext` counter used by `IncOrderPosNext`. -/
structure WalletAccounting where
  txAccountTally : String → ℤ
  entries : List CAccountingEntry
  nOrderPosNext : ℕ

/-- `CWalletDB::GetAccountCreditDebit`: the sum of `nCreditDebit` over the
entries of one account. -/
def GetAccountCreditDebit (st : WalletAccounting) (strAccount : String) : ℤ :=
  ((st.entries.filter (fun e => e.strAccount == strAccount)).map
    (fun e => e.nCreditDebit)).sum

/-- `GetAccountBalance` (rpcwallet.cpp): wallet-transaction tally plus the
internal accounting entries of the account. -/
def GetAccountBalance (st : WalletAccounting) (strAccount : String) : ℤ :=
  st.txAccountTally strAccount + GetAccountCreditDebit st strAccount

/-- `movecmd` (rpcwallet.cpp): validates the two account names
(`AccountFromValue` rejects `"*"`), rejects amounts below
`nMinimumInputValue` (code `-101`), then writes a debit entry against
`strFrom` and a credit entry for `strTo`, consuming two order positions.
`TxnBegin`/`TxnCommit` database failures are not modelled (they abort with
`RPC_DATABASE_ERROR` and write nothing). -/
def movecmd (nMinimumInputValue : ℤ) (st : WalletAccounting)
    (strFrom strTo : String) (nAmount nNow : ℤ) (strComment : String) :
    Except RPCError WalletAccounting :=
  if strFrom = "*" then
    .error ⟨.RPC_WALLET_INVALID_ACCOUNT_NAME, "Invalid account name"⟩
  else if strTo = "*" then
    .error ⟨.RPC_WALLET_INVALID_ACCOUNT_NAME, "Invalid account name"⟩
  else if nAmount < nMinimumInputValue then
    .error ⟨.RPC_SEND_AMOUNT_TOO_SMALL, "Send amount too small"⟩
  else
    .ok { st with
      entries := st.entries ++
        [⟨st.nOrderPosNext, strFrom, -nAmount, nNow, strTo, strComment⟩,
         ⟨st.nOrderPosNext + 1, strTo, nAmount, nNow, strFrom, strComment⟩],
      nOrderPosNext := st.nOrderPosNext + 2 }

/-- C4.  Moving `X` from `a` to `b` and then `X` back from `b` to `a`, with
no intervening transactions, restores every account balance and the four
accounting entries written by the two moves sum to zero.  Concretely
(scenario S3), starting from an empty ledger whose wallet-transaction tally
credits 50·COIN to "A", `move A→B 20·COIN` then `move B→A 20·COIN` leaves
`balance("A") = 50·COIN` and `balance("B") = 0`, with the ledger's entries
summing to zero. -/
theorem C4_move_round_trip (minIn : ℤ) (st : WalletAccounting) (a b : String)
    (X n1 n2 : ℤ) (c1 c2 : String)
    (ha : a ≠ "*") (hb : b ≠ "*") (hX : minIn ≤ X) (hmin20 : minIn ≤ 20 * COIN) :
    (∃ st1 st2,
      movecmd minIn st a b X n1 c1 = .ok st1 ∧
      movecmd minIn st1 b a X n2 c2 = .ok st2 ∧
      (∀ acct, GetAccountBalance st2 acct = GetAccountBalance st acct) ∧
      ((st2.entries.drop st.entries.length).map (fun e => e.nCreditDebit)).sum = 0) ∧
    (∃ t1 t2,
      movecmd minIn ⟨fun s => if s = "A" then 50 * COIN else 0, [], 0⟩
          "A" "B" (20 * COIN) 1000 "" = .ok t1 ∧
      movecmd minIn t1 "B" "A" (20 * COIN) 2000 "" = .ok t2 ∧
      GetAccountBalance t2 "A" = 50 * COIN ∧
      GetAccountBalance t2 "B" = 0 ∧
      (t2.entries.map (fun e => e.nCreditDebit)).sum = 0) := by
  have hXlt : ¬ X < minIn := not_lt.mpr hX
  have h20 : ¬ 20 * COIN < minIn := not_lt.mpr hmin20
  constructor
  · refine ⟨{ st with
        entries := st.entries ++
          [⟨st.nOrderPosNext, a, -X, n1, b, c1⟩,
           ⟨st.nOrderPosNext + 1, b, X, n1, a, c1⟩],
        nOrderPosNext := st.nOrderPosNext + 2 },
      { st with
        entries := (st.entries ++
          [⟨st.nOrderPosNext, a, -X, n1, b, c1⟩,
           ⟨st.nOrderPosNext + 1, b, X, n1, a, c1⟩]) ++
          [⟨st.nOrderPosNext + 2, b, -X, n2, a, c2⟩,
           ⟨st.nOrderPosNext + 2 + 1, a, X, n2, b, c2⟩],
        nOrderPosNext := st.nOrderPosNext + 2 + 2 },
      ?_, ?_, ?_, ?_⟩
    · simp [movecmd, ha, hb, hXlt]
    · simp [movecmd, ha, hb, hXlt]
    · intro acct
      simp only [GetAccountBalance, GetAccountCreditDebit]
      by_cases hA : a = acct <;> by_cases hB : b = acct <;>
        simp [List.filter_append, hA, hB, beq_iff_eq]
    · simp [List.drop_append]
  · refine ⟨⟨fun s => if s = "A" then 50 * COIN else 0,
        [⟨0, "A", -(20 * COIN), 1000, "B", ""⟩,
         ⟨1, "B", 20 * COIN, 1000, "A", ""⟩], 2⟩,
      ⟨fun s => if s = "A" then 50 * COIN else 0,
        [⟨0, "A", -(20 * COIN), 1000, "B", ""⟩,
         ⟨1, "B", 20 * COIN, 1000, "A", ""⟩,
         ⟨2, "B", -(20 * COIN), 2000, "A", ""⟩,
         ⟨3, "A", 20 * COIN, 2000, "B", ""⟩], 4⟩,
      ?_, ?_, by decide, by decide, by decide⟩
    · simp [movecmd, h20]
    · simp [movecmd, h20]

/-- Witness for `C4_move_round_trip` at `minIn = 1`, the S3 initial state,
`a = "A"`, `b = "B"`, `X = 20·COIN`. -/
theorem C4_move_round_trip_witness :
    (("A" : String) ≠ "*" ∧ ("B" : String) ≠ "*" ∧ (1 : ℤ) ≤ 20 * COIN ∧
      (1 : ℤ) ≤ 20 * COIN) ∧
    ((∃ st1 st2,
      movecmd 1 ⟨fun s => if s = "A" then 50 * COIN else 0, [], 0⟩
          "A" "B" (20 * COIN) 1000 "" = .ok st1 ∧
      movecmd 1 st1 "B" "A" (20 * COIN) 2000 "" = .ok st2 ∧
      (∀ acct, GetAccountBalance st2 acct =
        GetAccountBalance ⟨fun s => if s = "A" then 50 * COIN else 0, [], 0⟩ acct) ∧
      ((st2.entries.drop
          (⟨fun s => if s = "A" then 50 * COIN else 0, [], 0⟩ :
            WalletAccounting).entries.length).map
        (fun e => e.nCreditDebit)).sum = 0) ∧
    (∃ t1 t2,
      movecmd 1 ⟨fun s => if s = "A" then 50 * COIN else 0, [], 0⟩
          "A" "B" (20 * COIN) 1000 "" = .ok t1 ∧
      movecmd 1 t1 "B" "A" (20 * COIN) 2000 "" = .ok t2 ∧
      GetAccountBalance t2 "A" = 50 * COIN ∧
      GetAccountBalance t2 "B" = 0 ∧
      (t2.entries.map (fun e => e.nCreditDebit)).sum = 0)) :=
  ⟨⟨by decide, by decide, by decide, by decide⟩,
    C4_move_round_trip 1 ⟨fun s => if s = "A" then 50 * COIN else 0, [], 0⟩
      "A" "B" (20 * COIN) 1000 2000 "" ""
      (by decide) (by decide) (by decide) (by decide)⟩

/-!
## `sendmany` (rpcwallet.cpp)

The destination object is a `json_spirit` `Object`, i.e. an ordered list of
(name, value) pairs in which duplicate names are preserved, modelled as
`List (String × ℤ)` with amounts already converted by `AmountFromValue`.
Address validity (`CBitcoinAddress::IsValid`) and pair-ness
(`CBitcoinAddress::IsPair`) live outside the visible sources and are passed
as predicates.  The wallet collaborators consumed after the scan loop are
collected in `SendContext`.
-/

/-- Wallet collaborators of `sendmany` after its scan loop: lock state,
mint-only flag, the account balance fetched by `GetAccountBalance`, and the
outcomes of `CreateTransaction` / `CommitTransaction`. -/
structure SendContext where
  isLocked : Bool
  fWalletUnlockMintOnly : Bool
  accountBalance : ℤ
  createOk : Bool
  nFeeRequired : ℤ
  totalBalance : ℤ
  watchOnlyBalance : ℤ
  commitOk : Bool
  txid : String

/-- Result of `sendmany` together with whether control ever reached
`CWallet::CreateTransaction` (`createAttempted = false` means the call
failed before any transaction could be built). -/
structure SendOutcome where
  result : Except RPCError String
  createAttempted : Bool

/-- The per-destination scan loop of `sendmany`: for each pair, reject
invalid addresses, reject a duplicated non-pair address
(`RPC_INVALID_PARAMETER`, "Invalid parameter, duplicated address: ..."),
reject amounts below `nMinimumInputValue` (code `-101`), and accumulate
`totalAmount`.  `seen` is the `setAddress` accumulator, into which only
non-pair addresses are inserted. -/
def sendmanyScan (valid isPair : String → Bool) (nMinimumInputValue : ℤ) :
    List (String × ℤ) → List String → ℤ → Except RPCError ℤ
  | [], _, totalAmount => .ok totalAmount
  | (name, amt) :: rest, seen, totalAmount =>
    if valid name = false then
      .error ⟨.RPC_INVALID_ADDRESS_OR_KEY, "Invalid 42 address: " ++ name⟩
    else if isPair name = false && seen.contains name then
      .error ⟨.RPC_INVALID_PARAMETER, "Invalid parameter, duplicated address: " ++ name⟩
    else if amt < nMinimumInputValue then
      .error ⟨.RPC_SEND_AMOUNT_TOO_SMALL, "Send amount too small"⟩
    else
      sendmanyScan valid isPair nMinimumInputValue rest
        (if isPair name then seen else name :: seen) (totalAmount + amt)

/-- `sendmany` (rpcwallet.cpp): `AccountFromValue` rejects the reserved
account name `"*"`, then the scan loop runs, then
`EnsureWalletIsUnlocked`, the account-balance check, and finally
`CreateTransaction` / `CommitTransaction`. -/
def sendmany (ctx : SendContext) (valid isPair : String → Bool)
    (nMinimumInputValue : ℤ) (strAccount : String)
    (sendTo : List (String × ℤ)) : SendOutcome :=
  if strAccount = "*" then
    ⟨.error ⟨.RPC_WALLET_INVALID_ACCOUNT_NAME, "Invalid account name"⟩, false⟩
  else
    match sendmanyScan valid isPair nMinimumInputValue sendTo [] 0 with
    | .error e => ⟨.error e, false⟩
    | .ok totalAmount =>
      if ctx.isLocked then
        ⟨.error ⟨.RPC_WALLET_UNLOCK_NEEDED,
          "Error: Please enter the wallet passphrase with walletpassphrase first."⟩, false⟩
      else if ctx.fWalletUnlockMintOnly then
        ⟨.error ⟨.RPC_WALLET_UNLOCK_NEEDED,
          "Error: Wallet unlocked for block minting only."⟩, false⟩
      else if ctx.accountBalance < totalAmount then
        ⟨.error ⟨.RPC_WALLET_INSUFFICIENT_FUNDS, "Account has insufficient funds"⟩, false⟩
      else if ctx.createOk = false then
        if ctx.totalBalance - ctx.watchOnlyBalance < totalAmount + ctx.nFeeRequired then
          ⟨.error ⟨.RPC_WALLET_INSUFFICIENT_FUNDS, "Insufficient funds"⟩, true⟩
        else ⟨.error ⟨.RPC_WALLET_ERROR, "Transaction creation failed"⟩, true⟩
      else if ctx.commitOk = false then
        ⟨.error ⟨.RPC_WALLET_ERROR, "Transaction commit failed"⟩, true⟩
      else ⟨.ok ctx.txid, true⟩

/-- When the scan succeeds, every non-pair address occurs at most once in
the destinations (counting a prior occurrence in `seen`). -/
lemma sendmanyScan_ok_nodup (valid isPair : String → Bool) (minIn : ℤ) :
    ∀ (dest : List (String × ℤ)) (seen : List String) (total t : ℤ),
      sendmanyScan valid isPair minIn dest seen total = .ok t →
      ∀ a, isPair a = false →
        dest.countP (fun p => p.1 == a) +
          (if seen.contains a then 1 else 0) ≤ 1 := by
  intro dest
  induction dest with
  | nil =>
    intro seen total t _ a _
    simp only [List.countP_nil, Nat.zero_add]
    split <;> omega
  | cons p rest ih =>
    intro seen total t hok a hpa
    obtain ⟨name, amt⟩ := p
    rw [sendmanyScan] at hok
    by_cases hv : valid name = false
    · rw [if_pos hv] at hok; simp at hok
    rw [if_neg hv] at hok
    by_cases hd : (isPair name = false && seen.contains name) = true
    · rw [if_pos hd] at hok; simp at hok
    rw [if_neg hd] at hok
    by_cases hm : amt < minIn
    · rw [if_pos hm] at hok; simp at hok
    rw [if_neg hm] at hok
    have ihh := ih _ _ _ hok a hpa
    by_cases hna : name = a
    · subst hna
      have hseen : seen.contains name = false := by
        cases hc : seen.contains name
        · rfl
        · exact absurd (by rw [hpa, hc]; decide) hd
      simp only [hpa, Bool.false_eq_true, if_false] at ihh
      simp only [List.contains_cons, beq_self_eq_true, Bool.true_or,
        if_true] at ihh
      simp only [List.countP_cons, beq_self_eq_true, if_true, hseen,
        Bool.false_eq_true, if_false]
      omega
    · have hba : ((name, amt).1 == a) = false := by
        simp only [beq_eq_false_iff_ne]
        exact hna
      have hcont : (if isPair name = true then seen else name :: seen).contains a =
          seen.contains a := by
        by_cases hp : isPair name = true
        · rw [if_pos hp]
        · rw [if_neg hp, List.contains_cons]
          have : (a == name) = false := by
            simp only [beq_eq_false_iff_ne]
            exact Ne.symm hna
          rw [this, Bool.false_or]
      rw [hcont] at ihh
      simp only [List.countP_cons, hba, Bool.false_eq_true, if_false]
      omega

/-- When every destination address is valid and every amount is at least
the minimum, the scan either succeeds or fails with the duplicated-address
`RPC_INVALID_PARAMETER` error. -/
lemma sendmanyScan_allvalid (valid isPair : String → Bool) (minIn : ℤ) :
    ∀ (dest : List (String × ℤ)) (seen : List String) (total : ℤ),
      (∀ p ∈ dest, valid p.1 = true ∧ minIn ≤ p.2) →
      (∃ t, sendmanyScan valid isPair minIn dest seen total = .ok t) ∨
      (∃ nm, sendmanyScan valid isPair minIn dest seen total =
        .error ⟨.RPC_INVALID_PARAMETER,
          "Invalid parameter, duplicated address: " ++ nm⟩) := by
  intro dest
  induction dest with
  | nil => intro seen total _; exact .inl ⟨total, rfl⟩
  | cons p rest ih =>
    intro seen total hall
    obtain ⟨name, amt⟩ := p
    have hv : valid name = true := (hall (name, amt) (List.mem_cons_self _ _)).1
    have hm : minIn ≤ amt := (hall (name, amt) (List.mem_cons_self _ _)).2
    rw [sendmanyScan, if_neg (by simp [hv]), if_neg (not_lt.mpr hm)]
    by_cases hd : (isPair name = false && seen.contains name) = true
    · rw [if_pos hd]
      exact .inr ⟨name, rfl⟩
    · rw [if_neg hd]
      exact ih _ _ (fun q hq => hall q (List.mem_cons_of_mem _ hq))

/-- C5, counterexample.  The literal S4 call `sendmany("*", ...)` fails in
`AccountFromValue` with `RPC_WALLET_INVALID_ACCOUNT_NAME` ("Invalid account
name") before the destinations are even scanned, and with a concrete
account the duplicated address is rejected with `RPC_INVALID_PARAMETER`,
not with the claimed `RPC_INVALID_ADDRESS_OR_KEY`. -/
theorem C5_sendmany_counterexample :
    (sendmany ⟨false, false, 1000000000000, true, 0, 1000000000000, 0, true, "txid"⟩
        (fun _ => true) (fun _ => false) 1 "*"
        [("addr1", 1), ("addr1", 1)]).result =
      .error ⟨.RPC_WALLET_INVALID_ACCOUNT_NAME, "Invalid account name"⟩ ∧
    RPCErrorCode.RPC_WALLET_INVALID_ACCOUNT_NAME ≠
      RPCErrorCode.RPC_INVALID_ADDRESS_OR_KEY ∧
    (sendmany ⟨false, false, 1000000000000, true, 0, 1000000000000, 0, true, "txid"⟩
        (fun _ => true) (fun _ => false) 1 "acc"
        [("addr1", 1), ("addr1", 1)]).result =
      .error ⟨.RPC_INVALID_PARAMETER, "Invalid parameter, duplicated address: addr1"⟩ ∧
    RPCErrorCode.RPC_INVALID_PARAMETER ≠ RPCErrorCode.RPC_INVALID_ADDRESS_OR_KEY := by
  refine ⟨rfl, by decide, rfl, by decide⟩

/-- C5, amended.  A `sendmany` whose account is the reserved `"*"` fails
with `RPC_WALLET_INVALID_ACCOUNT_NAME` regardless of the destinations.
For a non-`"*"` account whose destinations are all valid with amounts at
least the minimum, a non-pair address occurring twice makes the call fail
with `RPC_INVALID_PARAMETER` and a "duplicated address" message, and no
transaction is created (control never reaches `CreateTransaction`). -/
theorem C5_sendmany_amended (ctx : SendContext) (valid isPair : String → Bool)
    (minIn : ℤ) (strAccount : String) (dest : List (String × ℤ)) (a : String)
    (hacct : strAccount ≠ "*")
    (hvalid : ∀ p ∈ dest, valid p.1 = true ∧ minIn ≤ p.2)
    (hpair : isPair a = false)
    (hdup : 2 ≤ dest.countP (fun p => p.1 == a)) :
    (∃ nm, (sendmany ctx valid isPair minIn strAccount dest).result =
      .error ⟨.RPC_INVALID_PARAMETER,
        "Invalid parameter, duplicated address: " ++ nm⟩) ∧
    (sendmany ctx valid isPair minIn strAccount dest).createAttempted = false ∧
    (∀ dest' : List (String × ℤ),
      (sendmany ctx valid isPair minIn "*" dest').result =
        .error ⟨.RPC_WALLET_INVALID_ACCOUNT_NAME, "Invalid account name"⟩ ∧
      (sendmany ctx valid isPair minIn "*" dest').createAttempted = false) := by
  have hscan : ∃ nm, sendmanyScan valid isPair minIn dest [] 0 =
      .error ⟨.RPC_INVALID_PARAMETER,
        "Invalid parameter, duplicated address: " ++ nm⟩ := by
    rcases sendmanyScan_allvalid valid isPair minIn dest [] 0 hvalid with ⟨t, ht⟩ | h
    · have hle := sendmanyScan_ok_nodup valid isPair minIn dest [] 0 t ht a hpair
      simp only [List.contains_nil, Bool.false_eq_true, if_false] at hle
      omega
    · exact h
  obtain ⟨nm, hnm⟩ := hscan
  refine ⟨⟨nm, ?_⟩, ?_, fun dest' => ⟨?_, ?_⟩⟩ <;>
    simp [sendmany, hacct, hnm]

/-- Witness for `C5_sendmany_amended` at a two-entry destination list
repeating the valid non-pair address "addr1". -/
theorem C5_sendmany_amended_witness :
    (("acc" : String) ≠ "*" ∧
      (∀ p ∈ [(("addr1" : String), (100000000 : ℤ)), ("addr1", 100000000)],
        (fun _ : String => true) p.1 = true ∧ (1 : ℤ) ≤ p.2) ∧
      (fun _ : String => false) "addr1" = false ∧
      2 ≤ [(("addr1" : String), (100000000 : ℤ)), ("addr1", 100000000)].countP
        (fun p => p.1 == "addr1")) ∧
    ((∃ nm, (sendmany ⟨false, false, 1000000000000, true, 0, 1000000000000, 0, true, "txid"⟩
        (fun _ => true) (fun _ => false) 1 "acc"
        [("addr1", 100000000), ("addr1", 100000000)]).result =
      .error ⟨.RPC_INVALID_PARAMETER,
        "Invalid parameter, duplicated address: " ++ nm⟩) ∧
    (sendmany ⟨false, false, 1000000000000, true, 0, 1000000000000, 0, true, "txid"⟩
        (fun _ => true) (fun _ => false) 1 "acc"
        [("addr1", 100000000), ("addr1", 100000000)]).createAttempted = false ∧
    (∀ dest' : List (String × ℤ),
      (sendmany ⟨false, false, 1000000000000, true, 0, 1000000000000, 0, true, "txid"⟩
          (fun _ => true) (fun _ => false) 1 "*" dest').result =
        .error ⟨.RPC_WALLET_INVALID_ACCOUNT_NAME, "Invalid account name"⟩ ∧
      (sendmany ⟨false, false, 1000000000000, true, 0, 1000000000000, 0, true, "txid"⟩
          (fun _ => true) (fun _ => false) 1 "*" dest').createAttempted = false)) :=
  ⟨⟨by decide, by decide, by decide, by decide⟩,
    C5_sendmany_amended ⟨false, false, 1000000000000, true, 0, 1000000000000, 0, true, "txid"⟩
      (fun _ => true) (fun _ => false) 1 "acc"
      [("addr1", 100000000), ("addr1", 100000000)] "addr1"
      (by decide) (by decide) (by decide) (by decide)⟩

/-!
## `walletpassphrase`, `walletlock` and the relocking worker (rpcwallet.cpp)

`nWalletUnlockTime` is in milliseconds; `0` means "no relock pending".
`ThreadCleanWalletPassphrase` is spawned on every successful unlock; its
body is a critical section on `cs_nWalletUnlockTime`, so its entry block
and the wake-up checks of the sleeping relocker execute serially and are
modelled as atomic steps (`cleanEntry`, `relockerStep`).  Real-time
sleeping is modelled by passing the wall-clock milliseconds `nowMs` to the
deadline checks.
-/

/-- Wallet lock/unlock state as `walletpassphrase`/`walletlock` see it. -/
structure WalletLockSt where
  isCrypted : Bool
  isLocked : Bool
  fWalletUnlockMintOnly : Bool
  nWalletUnlockTime : ℤ
  deriving DecidableEq, Repr

/-- Entry block of `ThreadCleanWalletPassphrase` (under
`cs_nWalletUnlockTime`): given the current `nWalletUnlockTime` and this
thread's `nMyWakeTime`, returns the new `nWalletUnlockTime` and whether
this thread proceeds into the sleep loop (becomes the waiting relocker).
A thread that finds a pending deadline only raises it (`nWalletUnlockTime
< nMyWakeTime` check) and exits. -/
def cleanEntry (cur wake : ℤ) : ℤ × Bool :=
  if cur = 0 then (wake, true)
  else (if cur < wake then wake else cur, false)

/-- `walletpassphrase` (rpcwallet.cpp), sequential model: the checks run in
source order (encryption state, already-unlocked, empty passphrase,
`CWallet::Unlock`), and on success the spawned relocker thread's entry
block is folded in (`nMyWakeTime = GetTimeMillis() + nSleepTime * 1000`),
together with the `fWalletUnlockMintOnly` assignment.  The third component
counts the `ThreadCleanWalletPassphrase` threads spawned by the call. -/
def walletpassphrase (st : WalletLockSt) (passOk passEmpty : Bool)
    (nowMs timeoutSec : ℤ) (mintArg : Option Bool) :
    Except RPCError Unit × WalletLockSt × ℕ :=
  if st.isCrypted = false then
    (.error ⟨.RPC_WALLET_WRONG_ENC_STATE,
      "Error: running with an unencrypted wallet, but walletpassphrase was called."⟩,
      st, 0)
  else if st.isLocked = false then
    (.error ⟨.RPC_WALLET_ALREADY_UNLOCKED,
      "Error: Wallet is already unlocked, use walletlock first if need to change unlock settings."⟩,
      st, 0)
  else if passEmpty then
    (.error ⟨.RPC_RUNTIME_ERROR, "walletpassphrase <passphrase> <timeout>"⟩, st, 0)
  else if passOk = false then
    (.error ⟨.RPC_WALLET_PASSPHRASE_INCORRECT,
      "Error: The wallet passphrase entered was incorrect."⟩, st, 0)
  else
    (.ok (), { st with
      isLocked := false,
      nWalletUnlockTime := (cleanEntry st.nWalletUnlockTime (nowMs + timeoutSec * 1000)).1,
      fWalletUnlockMintOnly := mintArg.getD false }, 1)

/-- The relocker's wake-up check: once `nWalletUnlockTime` is nonzero and
`nToSleep = nWalletUnlockTime - GetTimeMillis() ≤ 0`, the sleeping
relocker zeroes the deadline and calls `CWallet::Lock`. -/
def relockDue (st : WalletLockSt) (nowMs : ℤ) : Bool :=
  st.nWalletUnlockTime != 0 && st.nWalletUnlockTime - nowMs ≤ 0

/-- Interleaving model of the relocker threads, serialized by
`cs_nWalletUnlockTime`: `nWalletUnlockTime` plus the number of threads
currently inside the sleep loop. -/
structure RelockerW where
  nWalletUnlockTime : ℤ
  waiting : ℕ
  deriving DecidableEq, Repr

/-- Atomic events of the relocker protocol (without `walletlock`, which
zeroes the deadline from outside): a freshly spawned
`ThreadCleanWalletPassphrase` runs its entry block, or the waiting
relocker finds its deadline expired, zeroes it, locks the wallet and
exits.  (A waiter that finds the deadline already zeroed would exit
without relocking; with no `walletlock` events that transition never
fires.) -/
inductive RelockerEv where
  | threadEnter (wake : ℤ)
  | waiterRelock
  deriving DecidableEq, Repr

/-- One serialized step of the relocker protocol. -/
def relockerStep (s : RelockerW) : RelockerEv → RelockerW
  | .threadEnter wake =>
    if s.nWalletUnlockTime = 0 then ⟨wake, s.waiting + 1⟩
    else ⟨max s.nWalletUnlockTime wake, s.waiting⟩
  | .waiterRelock => ⟨0, s.waiting - 1⟩

/-- Run a sequence of relocker events. -/
def relockerRun (s : RelockerW) : List RelockerEv → RelockerW
  | [] => s
  | e :: es => relockerRun (relockerStep s e) es

/-- A `threadEnter` event carries a positive wake time
(`GetTimeMillis() + nSleepTime * 1000`). -/
def goodEv : RelockerEv → Bool
  | .threadEnter wake => decide (0 < wake)
  | .waiterRelock => true

/-- The relocker invariant: either nobody waits and no deadline is
pending, or exactly one waiter guards a nonzero deadline. -/
def relockerInv (s : RelockerW) : Prop :=
  (s.waiting = 0 ∧ s.nWalletUnlockTime = 0) ∨
  (s.waiting = 1 ∧ s.nWalletUnlockTime ≠ 0)

/-- The relocker invariant is preserved by every well-formed event. -/
lemma relockerRun_inv : ∀ (evs : List RelockerEv) (s : RelockerW),
    relockerInv s → (∀ e ∈ evs, goodEv e = true) →
    relockerInv (relockerRun s evs) := by
  intro evs
  induction evs with
  | nil => intro s hs _; exact hs
  | cons e es ih =>
    intro s hs hg
    refine ih _ ?_ (fun e' he' => hg e' (List.mem_cons_of_mem _ he'))
    have hge := hg e (List.mem_cons_self _ _)
    cases e with
    | threadEnter wake =>
      have hw : 0 < wake := by simpa [goodEv] using hge
      rcases hs with ⟨h0, ht⟩ | ⟨h1, ht⟩
      · rw [show relockerStep s (.threadEnter wake) = ⟨wake, s.waiting + 1⟩ from by
          simp [relockerStep, ht]]
        unfold relockerInv
        dsimp only
        exact .inr ⟨by omega, by omega⟩
      · rw [show relockerStep s (.threadEnter wake) =
            ⟨max s.nWalletUnlockTime wake, s.waiting⟩ from by
          simp [relockerStep, ht]]
        unfold relockerInv
        dsimp only
        refine .inr ⟨h1, ?_⟩
        rcases le_or_lt s.nWalletUnlockTime wake with hc | hc
        · rw [max_eq_right hc]; omega
        · rw [max_eq_left hc.le]; exact ht
    | waiterRelock =>
      rw [show relockerStep s .waiterRelock = ⟨0, s.waiting - 1⟩ from rfl]
      unfold relockerInv
      dsimp only
      rcases hs with ⟨h0, _⟩ | ⟨h1, _⟩
      · exact .inl ⟨by omega, rfl⟩
      · exact .inl ⟨by omega, rfl⟩

/-- C6, counterexample.  Issuing `walletpassphrase(p, 10)` at `t = 0` and
`walletpassphrase(p, 30)` at `t+3s` does not keep the wallet unlocked
until `t+33s`: the second call finds the wallet already unlocked and fails
with `RPC_WALLET_ALREADY_UNLOCKED` (spawning no relocker); the deadline
stays at `t+10s`, at which point the relocker's wake-up check relocks the
wallet — well before `t+33s`. -/
theorem C6_relocker_counterexample :
    walletpassphrase ⟨true, true, false, 0⟩ true false 0 10 none =
      (.ok (), ⟨true, false, false, 10000⟩, 1) ∧
    walletpassphrase ⟨true, false, false, 10000⟩ true false 3000 30 none =
      (.error ⟨.RPC_WALLET_ALREADY_UNLOCKED,
        "Error: Wallet is already unlocked, use walletlock first if need to change unlock settings."⟩,
        ⟨true, false, false, 10000⟩, 0) ∧
    relockDue ⟨true, false, false, 10000⟩ 10000 = true ∧
    (10000 : ℤ) < 33000 := by
  refine ⟨rfl, rfl, by decide, by decide⟩

/-- C6, amended.  A `walletpassphrase` arriving while the wallet is still
unlocked fails with `RPC_WALLET_ALREADY_UNLOCKED`, leaves the pending
deadline unchanged, and spawns nothing, so a later deadline can only be
installed after `walletlock`.  The deadline-extension logic lives in
`ThreadCleanWalletPassphrase` itself and only applies to relocker threads
racing on the same unlock window: a relocker thread that enters while a
deadline is pending raises it to the later of the two wake times and exits
without waiting, and (absent `walletlock`) at most one relocker thread is
ever inside the sleep loop. -/
theorem C6_relocker_amended (evs : List RelockerEv) (cur wake : ℤ)
    (hgood : ∀ e ∈ evs, goodEv e = true) (hcur : cur ≠ 0) :
    (cleanEntry cur wake = (max cur wake, false)) ∧
    (relockerRun ⟨0, 0⟩ evs).waiting ≤ 1 ∧
    (walletpassphrase ⟨true, true, false, 0⟩ true false 0 10 none =
        (.ok (), ⟨true, false, false, 10000⟩, 1) ∧
      walletpassphrase ⟨true, false, false, 10000⟩ true false 3000 30 none =
        (.error ⟨.RPC_WALLET_ALREADY_UNLOCKED,
          "Error: Wallet is already unlocked, use walletlock first if need to change unlock settings."⟩,
          ⟨true, false, false, 10000⟩, 0) ∧
      relockDue ⟨true, false, false, 10000⟩ 10000 = true) := by
  refine ⟨?_, ?_, rfl, rfl, by decide⟩
  · unfold cleanEntry
    rw [if_neg hcur]
    rcases le_or_lt wake cur with hc | hc
    · rw [if_neg (not_lt.mpr hc), max_eq_left hc]
    · rw [if_pos hc, max_eq_right hc.le]
  · have h := relockerRun_inv evs ⟨0, 0⟩ (.inl ⟨rfl, rfl⟩) hgood
    rcases h with ⟨h0, _⟩ | ⟨h1, _⟩
    · omega
    · omega

/-- Witness for `C6_relocker_amended` on the racing-unlock trace
`threadEnter 10000; threadEnter 33000; waiterRelock`. -/
theorem C6_relocker_amended_witness :
    ((∀ e ∈ [RelockerEv.threadEnter 10000, RelockerEv.threadEnter 33000,
        RelockerEv.waiterRelock], goodEv e = true) ∧ (10000 : ℤ) ≠ 0) ∧
    ((cleanEntry 10000 33000 = (max 10000 33000, false)) ∧
      (relockerRun ⟨0, 0⟩ [RelockerEv.threadEnter 10000,
        RelockerEv.threadEnter 33000, RelockerEv.waiterRelock]).waiting ≤ 1 ∧
      (walletpassphrase ⟨true, true, false, 0⟩ true false 0 10 none =
          (.ok (), ⟨true, false, false, 10000⟩, 1) ∧
        walletpassphrase ⟨true, false, false, 10000⟩ true false 3000 30 none =
          (.error ⟨.RPC_WALLET_ALREADY_UNLOCKED,
            "Error: Wallet is already unlocked, use walletlock first if need to change unlock settings."⟩,
            ⟨true, false, false, 10000⟩, 0) ∧
        relockDue ⟨true, false, false, 10000⟩ 10000 = true)) :=
  ⟨⟨by decide, by decide⟩,
    C6_relocker_amended
      [RelockerEv.threadEnter 10000, RelockerEv.threadEnter 33000,
        RelockerEv.waiterRelock] 10000 33000 (by decide) (by decide)⟩

/-- C9.  Calling `walletpassphrase` on an encrypted wallet that is already
unlocked fails with `RPC_WALLET_ALREADY_UNLOCKED` irrespective of the
supplied passphrase (the check precedes `CWallet::Unlock`), leaves the
lock state, the relock deadline and the mint-only flag unchanged, and
spawns no relocker; conversely a successful unlock requires the wallet to
have been locked (hence a later deadline needs `walletlock` first). -/
theorem C9_walletpassphrase_already_unlocked (st : WalletLockSt)
    (passOk passEmpty : Bool) (nowMs timeoutSec : ℤ) (mintArg : Option Bool)
    (hc : st.isCrypted = true) (hl : st.isLocked = false) :
    walletpassphrase st passOk passEmpty nowMs timeoutSec mintArg =
      (.error ⟨.RPC_WALLET_ALREADY_UNLOCKED,
        "Error: Wallet is already unlocked, use walletlock first if need to change unlock settings."⟩,
        st, 0) ∧
    (∀ (st' : WalletLockSt) (passOk' passEmpty' : Bool) (nowMs' timeoutSec' : ℤ)
        (mintArg' : Option Bool),
      (walletpassphrase st' passOk' passEmpty' nowMs' timeoutSec' mintArg').1 = .ok () →
      st'.isLocked = true ∧ st'.isCrypted = true) := by
  constructor
  · unfold walletpassphrase
    rw [hc, hl]
    rfl
  · intro st' passOk' passEmpty' nowMs' timeoutSec' mintArg' hok
    unfold walletpassphrase at hok
    by_cases h1 : st'.isCrypted = false
    · rw [if_pos h1] at hok; exact absurd hok (by simp)
    rw [if_neg h1] at hok
    by_cases h2 : st'.isLocked = false
    · rw [if_pos h2] at hok; exact absurd hok (by simp)
    rw [if_neg h2] at hok
    by_cases h3 : passEmpty' = true
    · rw [if_pos h3] at hok; exact absurd hok (by simp)
    rw [if_neg h3] at hok
    by_cases h4 : passOk' = false
    · rw [if_pos h4] at hok; exact absurd hok (by simp)
    rw [if_neg h4] at hok
    exact ⟨by revert h2; cases st'.isLocked <;> simp,
      by revert h1; cases st'.isCrypted <;> simp⟩

/-- Witness for `C9_walletpassphrase_already_unlocked` on an encrypted,
unlocked wallet with a pending deadline. -/
theorem C9_walletpassphrase_already_unlocked_witness :
    ((⟨true, false, true, 5000⟩ : WalletLockSt).isCrypted = true ∧
      (⟨true, false, true, 5000⟩ : WalletLockSt).isLocked = false) ∧
    (walletpassphrase ⟨true, false, true, 5000⟩ false true 7 9 (some false) =
      (.error ⟨.RPC_WALLET_ALREADY_UNLOCKED,
        "Error: Wallet is already unlocked, use walletlock first if need to change unlock settings."⟩,
        (⟨true, false, true, 5000⟩ : WalletLockSt), 0) ∧
    (∀ (st' : WalletLockSt) (passOk' passEmpty' : Bool) (nowMs' timeoutSec' : ℤ)
        (mintArg' : Option Bool),
      (walletpassphrase st' passOk' passEmpty' nowMs' timeoutSec' mintArg').1 = .ok () →
      st'.isLocked = true ∧ st'.isCrypted = true)) :=
  ⟨⟨by decide, by decide⟩,
    C9_walletpassphrase_already_unlocked ⟨true, false, true, 5000⟩
      false true 7 9 (some false) (by decide) (by decide)⟩

/-!
## `listsinceblock` (rpcwallet.cpp)

The main chain is modelled as contiguous heights `0 .. bestHeight` with
`hashAt h` the hash (as a number) of the block at height `h`;
`CBlockIndex::pprev` steps from height `h+1` to `h` and is null at the
genesis block.  A wallet transaction is represented by its
`GetDepthInMainChain` value.
-/

/-- A wallet transaction as `listsinceblock` consumes it. -/
structure WalletTxMeta where
  txid : String
  depth : ℤ
  deriving DecidableEq, Repr

/-- The depth cutoff of `listsinceblock`:
`depth = pindex ? (1 + nBestHeight - pindex->nHeight) : -1`. -/
def listsinceblockDepth (bestHeight : ℕ) (blockHeight : Option ℕ) : ℤ :=
  match blockHeight with
  | some h => 1 + (bestHeight : ℤ) - h
  | none => -1

/-- The transaction sweep of `listsinceblock`: a wallet transaction is
listed when `depth == -1 || tx.GetDepthInMainChain() < depth`. -/
def listsinceblockTxs (bestHeight : ℕ) (blockHeight : Option ℕ)
    (txs : List WalletTxMeta) : List WalletTxMeta :=
  txs.filter fun tx =>
    listsinceblockDepth bestHeight blockHeight == -1 ||
      decide (tx.depth < listsinceblockDepth bestHeight blockHeight)

/-- The `lastblock` walk: from the best block, follow `pprev` while
`block->nHeight > target_height`; the result is `none` when the walk runs
off the genesis block. -/
def lastblockWalk (targetHeight : ℤ) : ℕ → Option ℕ
  | 0 => if (0 : ℤ) > targetHeight then none else some 0
  | h + 1 => if ((h : ℤ) + 1) > targetHeight then lastblockWalk targetHeight h
             else some (h + 1)

/-- The `lastblock` reported by `listsinceblock`: `hashBestChain` when
`target_confirms == 1`, otherwise the hash of the block where the walk
stops (`0` if the walk exhausts the chain). -/
def listsinceblockLastblock (bestHeight : ℕ) (hashAt : ℕ → ℕ)
    (targetConfirms : ℕ) : ℕ :=
  if targetConfirms = 1 then hashAt bestHeight
  else
    match lastblockWalk ((bestHeight : ℤ) + 1 - targetConfirms) bestHeight with
    | some h => hashAt h
    | none => 0

/-- The walk stops exactly at the target height when it exists on the
chain. -/
lemma lastblockWalk_eq (targetHeight : ℤ) :
    ∀ n : ℕ, 0 ≤ targetHeight → targetHeight ≤ n →
      lastblockWalk targetHeight n = some targetHeight.toNat := by
  intro n
  induction n with
  | zero =>
    intro h0 hn
    have : targetHeight = 0 := le_antisymm (by exact_mod_cast hn) h0
    rw [lastblockWalk, if_neg (by omega)]
    rw [this]
    rfl
  | succ h ih =>
    intro h0 hn
    rw [lastblockWalk]
    by_cases hgt : ((h : ℤ) + 1) > targetHeight
    · rw [if_pos hgt]
      exact ih h0 (by omega)
    · rw [if_neg hgt]
      have : targetHeight = (h : ℤ) + 1 := by
        push_cast at hn
        omega
      rw [this]
      norm_num

/-- C7.  For a `listsinceblock` whose block hash names the main-chain
block at height `h`, the listed transactions are exactly those with
`depth < bestHeight - h + 1`; with the block hash omitted every wallet
transaction is listed; and `lastblock` is the hash of the main-chain block
at height `bestHeight - targetConfirms + 1` (for `1 ≤ targetConfirms ≤
bestHeight + 1`, so that this height exists). -/
theorem C7_listsinceblock (bestHeight h : ℕ) (txs : List WalletTxMeta)
    (hashAt : ℕ → ℕ) (targetConfirms : ℕ)
    (hh : h ≤ bestHeight) (htc1 : 1 ≤ targetConfirms)
    (htc : targetConfirms ≤ bestHeight + 1) :
    (∀ tx, tx ∈ listsinceblockTxs bestHeight (some h) txs ↔
      tx ∈ txs ∧ tx.depth < (bestHeight : ℤ) - h + 1) ∧
    listsinceblockTxs bestHeight none txs = txs ∧
    listsinceblockLastblock bestHeight hashAt targetConfirms =
      hashAt (bestHeight + 1 - targetConfirms) := by
  refine ⟨?_, ?_, ?_⟩
  · intro tx
    have hd : listsinceblockDepth bestHeight (some h) = 1 + (bestHeight : ℤ) - h := rfl
    have hne : (listsinceblockDepth bestHeight (some h) == -1) = false := by
      rw [hd]
      simp only [beq_eq_false_iff_ne]
      have : (h : ℤ) ≤ bestHeight := by exact_mod_cast hh
      omega
    constructor
    · intro hmem
      have := List.of_mem_filter hmem
      rw [hne, Bool.false_or, decide_eq_true_eq, hd] at this
      exact ⟨List.mem_of_mem_filter hmem, by omega⟩
    · intro ⟨hmem, hdep⟩
      refine List.mem_filter.mpr ⟨hmem, ?_⟩
      rw [hne, Bool.false_or, decide_eq_true_eq, hd]
      omega
  · unfold listsinceblockTxs
    simp only [List.filter_eq_self]
    intro a _
    rfl
  · unfold listsinceblockLastblock
    by_cases h1 : targetConfirms = 1
    · rw [if_pos h1, h1]
      norm_num
    · rw [if_neg h1]
      have h0 : 0 ≤ (bestHeight : ℤ) + 1 - targetConfirms := by
        have : (targetConfirms : ℤ) ≤ bestHeight + 1 := by exact_mod_cast htc
        omega
      have hle : (bestHeight : ℤ) + 1 - targetConfirms ≤ bestHeight := by
        have : (1 : ℤ) ≤ targetConfirms := by exact_mod_cast htc1
        omega
      rw [lastblockWalk_eq _ _ h0 hle]
      have : ((bestHeight : ℤ) + 1 - targetConfirms).toNat =
          bestHeight + 1 - targetConfirms := by omega
      rw [this]

/-- Witness for `C7_listsinceblock` at `bestHeight = 5`, block height 2,
two wallet transactions, `targetConfirms = 3`. -/
theorem C7_listsinceblock_witness :
    ((2 : ℕ) ≤ 5 ∧ (1 : ℕ) ≤ 3 ∧ (3 : ℕ) ≤ 5 + 1) ∧
    ((∀ tx, tx ∈ listsinceblockTxs 5 (some 2) [⟨"a", 1⟩, ⟨"b", 9⟩] ↔
      tx ∈ [(⟨"a", 1⟩ : WalletTxMeta), ⟨"b", 9⟩] ∧ tx.depth < (5 : ℤ) - 2 + 1) ∧
    listsinceblockTxs 5 none [⟨"a", 1⟩, ⟨"b", 9⟩] = [⟨"a", 1⟩, ⟨"b", 9⟩] ∧
    listsinceblockLastblock 5 (fun n => n + 100) 3 = (fun n : ℕ => n + 100) (5 + 1 - 3)) :=
  ⟨⟨by decide, by decide, by decide⟩,
    C7_listsinceblock 5 2 [⟨"a", 1⟩, ⟨"b", 9⟩] (fun n => n + 100) 3
      (by decide) (by decide) (by decide)⟩

/-!
## `GetExternalIPbySTUN` (stun.cpp)

`StunSrvList` has 893 entries, so `StunSrvListQty = 893`.  The probe of
one server, `StunRequest(name, port, mapped)`, performs network I/O; it is
abstracted as `probe : ℕ → ℤ` giving the return code `rc` for the server
at a list index — `rc ≥ 0` means the request succeeded and `mapped` was
populated.  `uint64_t` values are natural numbers below `2 ^ 64`,
`uint16_t` arithmetic is `% 65536`, and for `rnd < 2 ^ 64` the C step
`rnd = (rnd >> 8) | 0xff00000000000000` equals
`rnd / 256 + 0xff00000000000000` because the shifted value has a zero top
byte.
-/

/-- Number of entries of `StunSrvList`. -/
def StunSrvListQty : ℕ := 893

/-- One iteration of the step-selection update:
`rnd = (rnd >> 8) | 0xff00000000000000`. -/
def stunNext (rnd : ℕ) : ℕ := rnd / 256 + 18374686479671623680

/-- `stunNext` iterated (`stunNextIter k r` is the value of `rnd` after
`k` executions of the loop body). -/
def stunNextIter : ℕ → ℕ → ℕ
  | 0, r => r
  | k + 1, r => stunNextIter k (stunNext r)

/-- The `do { rnd = ...; step = rnd % StunSrvListQty } while (step == 0)`
loop, with the iteration count bounded by the fuel plus one: at fuel 0 the
residue of the next iterate is returned unconditionally (the saturation
theorems show the 8th iterate's residue is 776, so with fuel 7 this is the
loop itself). -/
def stunStepGo : ℕ → ℕ → ℕ
  | r, 0 => stunNext r % StunSrvListQty
  | r, k + 1 =>
    if stunNext r % StunSrvListQty ≠ 0 then stunNext r % StunSrvListQty
    else stunStepGo (stunNext r) k

/-- The selected step for a given 64-bit entropy value. -/
def stunStep (rnd : ℕ) : ℕ := stunStepGo rnd 7

/-- The probe loop of `GetExternalIPbySTUN`:
`for (attempt = 1; attempt < StunSrvListQty * 2; attempt++)`, probing
`pos = (pos + step) % StunSrvListQty` each time and returning the attempt
counter on the first `rc ≥ 0`.  The fuel only bounds the recursion; at
`fuel = 1786` and `attempt = 1` the `attempt` guard always fires first. -/
def stunLoopF (probe : ℕ → ℤ) (step : ℕ) : ℕ → ℕ → ℕ → ℤ
  | _, _, 0 => -1
  | pos, attempt, fuel + 1 =>
    if attempt < 2 * StunSrvListQty then
      if 0 ≤ probe ((pos + step) % StunSrvListQty) then (attempt : ℤ)
      else stunLoopF probe step ((pos + step) % StunSrvListQty) (attempt + 1) fuel
    else -1

/-- `GetExternalIPbySTUN` (stun.cpp): select a nonzero step from the
entropy, start from `pos = (uint16_t)rnd`, and probe until success or
until the attempt counter reaches `2 * StunSrvListQty`. -/
def GetExternalIPbySTUN (rnd : ℕ) (probe : ℕ → ℤ) : ℤ :=
  stunLoopF probe (stunStep (rnd % 2 ^ 64)) (rnd % 65536) 1 1786

/-- After 8 iterations the step-selection value saturates at
`0xFFFFFFFFFFFFFFFF`. -/
lemma stunNextIter_8_sat (r : ℕ) (h : r < 2 ^ 64) :
    stunNextIter 8 r = 2 ^ 64 - 1 := by
  show stunNext (stunNext (stunNext (stunNext (stunNext (stunNext
    (stunNext (stunNext r))))))) = 2 ^ 64 - 1
  unfold stunNext
  omega

/-- The selection loop result is a residue of some iterate: either an
early iterate gave a nonzero residue, or the result is the residue of the
`k+1`-st iterate. -/
lemma stunStepGo_cases : ∀ (k r : ℕ),
    (stunStepGo r k ≠ 0 ∧ stunStepGo r k < StunSrvListQty) ∨
    stunStepGo r k = stunNextIter (k + 1) r % StunSrvListQty := by
  intro k
  induction k with
  | zero => intro r; exact .inr rfl
  | succ k ih =>
    intro r
    rw [stunStepGo]
    by_cases hz : stunNext r % StunSrvListQty ≠ 0
    · rw [if_pos hz]
      exact .inl ⟨hz, Nat.mod_lt _ (by decide)⟩
    · rw [if_neg hz]
      rcases ih (stunNext r) with h | h
      · exact .inl h
      · exact .inr h

/-- The selected step is nonzero and within the server list. -/
lemma stunStep_ne_zero (r : ℕ) (h : r < 2 ^ 64) :
    stunStep r ≠ 0 ∧ stunStep r < StunSrvListQty := by
  rcases stunStepGo_cases 7 r with hc | hc
  · exact hc
  · rw [stunStep, hc, stunNextIter_8_sat r h]
    decide

/-- Full characterization of the probe loop: starting at attempt
`attempt` with the position invariant `pos ≡ pos0 + (attempt-1)·step`, the
loop either returns `-1` with every remaining probe failing, or returns
the first attempt number whose probe succeeds. -/
lemma stunLoopF_spec (probe : ℕ → ℤ) (step pos0 : ℕ) :
    ∀ (fuel attempt pos : ℕ),
      attempt + fuel = 1787 → 1 ≤ attempt →
      pos % StunSrvListQty = (pos0 + (attempt - 1) * step) % StunSrvListQty →
      (stunLoopF probe step pos attempt fuel = -1 ∧
        ∀ k, attempt ≤ k → k ≤ 1785 →
          probe ((pos0 + k * step) % StunSrvListQty) < 0) ∨
      (∃ k, attempt ≤ k ∧ k ≤ 1785 ∧
        stunLoopF probe step pos attempt fuel = (k : ℤ) ∧
        0 ≤ probe ((pos0 + k * step) % StunSrvListQty) ∧
        ∀ j, attempt ≤ j → j < k →
          probe ((pos0 + j * step) % StunSrvListQty) < 0) := by
  intro fuel
  induction fuel with
  | zero =>
    intro attempt pos hsum _ _
    exact .inl ⟨rfl, fun k hk hk' => absurd (le_trans hk hk') (by omega)⟩
  | succ fuel ih =>
    intro attempt pos hsum hatt hinv
    rw [stunLoopF]
    by_cases hlt : attempt < 2 * StunSrvListQty
    · rw [if_pos hlt]
      have hlt' : attempt < 1786 := by
        have : 2 * StunSrvListQty = 1786 := by decide
        omega
      have hpos : (pos + step) % StunSrvListQty =
          (pos0 + attempt * step) % StunSrvListQty := by
        conv_lhs => rw [← Nat.mod_add_mod, hinv, Nat.mod_add_mod]
        congr 1
        have h1 : attempt - 1 + 1 = attempt := by omega
        calc pos0 + (attempt - 1) * step + step
            = pos0 + ((attempt - 1) * step + step) := by omega
          _ = pos0 + (attempt - 1 + 1) * step := by rw [Nat.succ_mul]
          _ = pos0 + attempt * step := by rw [h1]
      by_cases hp : 0 ≤ probe ((pos + step) % StunSrvListQty)
      · rw [if_pos hp]
        refine .inr ⟨attempt, le_rfl, by omega, rfl, ?_, fun j hj hj' => by omega⟩
        rw [← hpos]
        exact hp
      · rw [if_neg hp]
        have hfail : probe ((pos0 + attempt * step) % StunSrvListQty) < 0 := by
          rw [← hpos]
          exact not_le.mp hp
        have hnext := ih (attempt + 1) ((pos + step) % StunSrvListQty)
          (by omega) (by omega)
          (by rw [Nat.mod_mod_of_dvd _ dvd_rfl, hpos]; norm_num)
        rcases hnext with ⟨hres, hall⟩ | ⟨k, hk1, hk2, hkres, hkp, hkprev⟩
        · refine .inl ⟨hres, fun k hk hk' => ?_⟩
          rcases eq_or_lt_of_le hk with rfl | hklt
          · exact hfail
          · exact hall k (by omega) hk'
        · refine .inr ⟨k, by omega, hk2, hkres, hkp, fun j hj hj' => ?_⟩
          rcases eq_or_lt_of_le hj with rfl | hjlt
          · exact hfail
          · exact hkprev j (by omega) hj'
    · rw [if_neg hlt]
      have : 2 * StunSrvListQty = 1786 := by decide
      exact .inl ⟨rfl, fun k hk hk' => by omega⟩

/-- C10.  The step-selection loop of `GetExternalIPbySTUN` terminates: the
update saturates at `0xFFFFFFFFFFFFFFFF` after 8 iterations, the residue
of the saturated value modulo `StunSrvListQty = 893` is `776 ≠ 0`, so a
nonzero `step` below `StunSrvListQty` is found within 8 iterations, and
every subsequent probe position `(pos + step) % StunSrvListQty` is within
the server-list bounds. -/
theorem C10_stun_step_selection (rnd : ℕ) (h : rnd < 2 ^ 64) :
    stunNextIter 8 rnd = 2 ^ 64 - 1 ∧
    (2 ^ 64 - 1) % StunSrvListQty = 776 ∧ (776 : ℕ) ≠ 0 ∧
    (∃ k, 1 ≤ k ∧ k ≤ 8 ∧ stunNextIter k rnd % StunSrvListQty ≠ 0) ∧
    stunStep rnd ≠ 0 ∧ stunStep rnd < StunSrvListQty ∧
    ∀ pos : ℕ, (pos + stunStep rnd) % StunSrvListQty < StunSrvListQty := by
  have hsat := stunNextIter_8_sat rnd h
  have hstep := stunStep_ne_zero rnd h
  exact ⟨hsat, by decide, by decide,
    ⟨8, by decide, by decide, by rw [hsat]; decide⟩,
    hstep.1, hstep.2, fun pos => Nat.mod_lt _ (by decide)⟩

/-- Witness for `C10_stun_step_selection` at `rnd = 0`. -/
theorem C10_stun_step_selection_witness :
    (0 : ℕ) < 2 ^ 64 ∧
    (stunNextIter 8 0 = 2 ^ 64 - 1 ∧
      (2 ^ 64 - 1) % StunSrvListQty = 776 ∧ (776 : ℕ) ≠ 0 ∧
      (∃ k, 1 ≤ k ∧ k ≤ 8 ∧ stunNextIter k 0 % StunSrvListQty ≠ 0) ∧
      stunStep 0 ≠ 0 ∧ stunStep 0 < StunSrvListQty ∧
      ∀ pos : ℕ, (pos + stunStep 0) % StunSrvListQty < StunSrvListQty) :=
  ⟨by decide, C10_stun_step_selection 0 (by decide)⟩

/-- C8.  `GetExternalIPbySTUN` probes at most `2 * StunSrvListQty`
servers, walking the list with the pseudo-random `(pos, step)` pair: it
returns either `-1` (exactly when every probe of the budget fails — the
budget is the attempts `1 .. 1785 < 2 * StunSrvListQty`) or the positive
attempt count of the first successful probe (`rc ≥ 0`, i.e. `mapped` was
populated by that `StunRequest`). -/
theorem C8_GetExternalIPbySTUN_budget (rnd : ℕ) (probe : ℕ → ℤ)
    (h : rnd < 2 ^ 64) :
    (GetExternalIPbySTUN rnd probe = -1 ∨
      (1 ≤ GetExternalIPbySTUN rnd probe ∧
        GetExternalIPbySTUN rnd probe < 2 * StunSrvListQty)) ∧
    (GetExternalIPbySTUN rnd probe = -1 ↔
      ∀ k : ℕ, 1 ≤ k → k ≤ 1785 →
        probe ((rnd % 65536 + k * stunStep rnd) % StunSrvListQty) < 0) ∧
    (∀ k : ℕ, GetExternalIPbySTUN rnd probe = (k : ℤ) →
      0 ≤ probe ((rnd % 65536 + k * stunStep rnd) % StunSrvListQty) ∧
      ∀ j : ℕ, 1 ≤ j → j < k →
        probe ((rnd % 65536 + j * stunStep rnd) % StunSrvListQty) < 0) := by
  have hmod : rnd % 2 ^ 64 = rnd := Nat.mod_eq_of_lt h
  have hrun : GetExternalIPbySTUN rnd probe =
      stunLoopF probe (stunStep rnd) (rnd % 65536) 1 1786 := by
    rw [GetExternalIPbySTUN, hmod]
  have hspec := stunLoopF_spec probe (stunStep rnd) (rnd % 65536) 1786 1
    (rnd % 65536) (by omega) (by omega) (by simp)
  rcases hspec with ⟨hres, hall⟩ | ⟨k, hk1, hk2, hkres, hkp, hkprev⟩
  · have hm1 : GetExternalIPbySTUN rnd probe = -1 := hrun.trans hres
    refine ⟨.inl hm1, ⟨fun _ => hall, fun _ => hm1⟩, fun k hkk => ?_⟩
    rw [hm1] at hkk
    exfalso
    omega
  · have hkk : GetExternalIPbySTUN rnd probe = (k : ℤ) := hrun.trans hkres
    have h2q : (StunSrvListQty : ℤ) = 893 := by decide
    refine ⟨.inr ⟨by rw [hkk]; exact_mod_cast hk1, by rw [hkk, h2q]; omega⟩,
      ⟨fun hm => ?_, fun hall' => ?_⟩, fun k' hk' => ?_⟩
    · exfalso
      rw [hkk] at hm
      omega
    · exact absurd hkp (not_le.mpr (hall' k hk1 hk2))
    · rw [hkk] at hk'
      have hkeq : k = k' := by exact_mod_cast hk'
      subst hkeq
      exact ⟨hkp, fun j hj hjk => hkprev j hj hjk⟩

/-- Witness for `C8_GetExternalIPbySTUN_budget` at `rnd = 0` with an
always-succeeding probe. -/
theorem C8_GetExternalIPbySTUN_budget_witness :
    (0 : ℕ) < 2 ^ 64 ∧
    ((GetExternalIPbySTUN 0 (fun _ => 0) = -1 ∨
      (1 ≤ GetExternalIPbySTUN 0 (fun _ => 0) ∧
        GetExternalIPbySTUN 0 (fun _ => 0) < 2 * StunSrvListQty)) ∧
    (GetExternalIPbySTUN 0 (fun _ => 0) = -1 ↔
      ∀ k : ℕ, 1 ≤ k → k ≤ 1785 →
        (fun _ : ℕ => (0 : ℤ)) ((0 % 65536 + k * stunStep 0) % StunSrvListQty) < 0) ∧
    (∀ k : ℕ, GetExternalIPbySTUN 0 (fun _ => 0) = (k : ℤ) →
      0 ≤ (fun _ : ℕ => (0 : ℤ)) ((0 % 65536 + k * stunStep 0) % StunSrvListQty) ∧
      ∀ j : ℕ, 1 ≤ j → j < k →
        (fun _ : ℕ => (0 : ℤ)) ((0 % 65536 + j * stunStep 0) % StunSrvListQty) < 0)) :=
  ⟨by decide, C8_GetExternalIPbySTUN_budget 0 (fun _ => 0) (by decide)⟩

end FortyTwo
